import Mathlib

/-!
Verification of the watermark rendering and batch-archive engine of
`main.py` (Master/Slave watermark bot).  The engine is shallowly embedded:
pure pixel data, settings records and the control flow of
`process_image_with_watermark` / `process_zip_archive` are translated
directly; the external library surface (image codecs, font loading, glyph
rasterisation, zip parsing) is an explicit environment `Env` of functions,
and the arguments the engine passes to the drawing call are recorded in the
result so that colour, stroke and placement contracts can be stated.

Python `float` values that the engine manipulates (`size_percent`, the
luma average, the `0.05` margin factor) are modelled as exact rationals;
Python `int(x)` truncation toward zero is `Int.tdiv` of the rational's
numerator by its denominator.
-/

/-- An in-memory raster image: dimensions plus an RGB pixel lookup
(`Image` objects of the imaging library, after conversion to RGB). -/
structure Img where
  width : Nat
  height : Nat
  px : Nat → Nat → Int × Int × Int

/-- Row-major pixel list, as returned by `img.getdata()`. -/
def Img.getdata (img : Img) : List (Int × Int × Int) :=
  (List.range (img.width * img.height)).map (fun i => img.px (i % img.width) (i / img.width))

/-- Perceptual luma of one pixel: `0.299*R + 0.587*G + 0.114*B`
(body of the loop in `calculate_average_brightness`, main.py). -/
def luma (p : Int × Int × Int) : ℚ :=
  0.299 * (p.1 : ℚ) + 0.587 * (p.2.1 : ℚ) + 0.114 * (p.2.2 : ℚ)

/-- `calculate_average_brightness` (main.py): average luma over all pixels. -/
def calculate_average_brightness (img : Img) : ℚ :=
  ((img.getdata.map luma).sum) / (img.getdata.length : ℚ)

/-- `get_auto_color` (main.py): white on dark images (average luma
strictly below 128), black otherwise. -/
def get_auto_color (img : Img) : Int × Int × Int :=
  if calculate_average_brightness img < 128 then (255, 255, 255) else (0, 0, 0)

/-- `invert_color` (main.py): channel-wise complement. -/
def invert_color (c : Int × Int × Int) : Int × Int × Int :=
  (255 - c.1, 255 - c.2.1, 255 - c.2.2)

/-- A fully-populated settings record (the shape of
`DEFAULT_WATERMARK_SETTINGS` and of any merged settings value). -/
structure WatermarkSettings where
  size_percent : ℚ
  color_r : Int
  color_g : Int
  color_b : Int
  opacity : Int
  auto_color : Bool
  stroke_enabled : Bool
  stroke_width : Int

/-- `DEFAULT_WATERMARK_SETTINGS` (main.py). -/
def DEFAULT_WATERMARK_SETTINGS : WatermarkSettings :=
  { size_percent := 0.3, color_r := 255, color_g := 255, color_b := 255,
    opacity := 128, auto_color := false, stroke_enabled := false, stroke_width := 2 }

/-- A possibly-incomplete settings dictionary (a Python `dict` whose keys are
read with `settings.get(key, DEFAULT_WATERMARK_SETTINGS[key])`). -/
structure SettingsDict where
  size_percent : Option ℚ := none
  color_r : Option Int := none
  color_g : Option Int := none
  color_b : Option Int := none
  opacity : Option Int := none
  auto_color : Option Bool := none
  stroke_enabled : Option Bool := none
  stroke_width : Option Int := none

/-- `DEFAULT_WATERMARK_SETTINGS.copy()` viewed as a dictionary: every key present. -/
def defaultDict : SettingsDict :=
  { size_percent := some DEFAULT_WATERMARK_SETTINGS.size_percent,
    color_r := some DEFAULT_WATERMARK_SETTINGS.color_r,
    color_g := some DEFAULT_WATERMARK_SETTINGS.color_g,
    color_b := some DEFAULT_WATERMARK_SETTINGS.color_b,
    opacity := some DEFAULT_WATERMARK_SETTINGS.opacity,
    auto_color := some DEFAULT_WATERMARK_SETTINGS.auto_color,
    stroke_enabled := some DEFAULT_WATERMARK_SETTINGS.stroke_enabled,
    stroke_width := some DEFAULT_WATERMARK_SETTINGS.stroke_width }

/-- `if settings is None: settings = DEFAULT_WATERMARK_SETTINGS.copy()`. -/
def dictOf (settings : Option SettingsDict) : SettingsDict :=
  match settings with
  | none => defaultDict
  | some s => s

/-- Up-front default-overridden-by-stored-value merge of a possibly
incomplete dictionary into a full record (spec §3 invariant). -/
def mergeDefaults (s : SettingsDict) : WatermarkSettings :=
  { size_percent := s.size_percent.getD DEFAULT_WATERMARK_SETTINGS.size_percent,
    color_r := s.color_r.getD DEFAULT_WATERMARK_SETTINGS.color_r,
    color_g := s.color_g.getD DEFAULT_WATERMARK_SETTINGS.color_g,
    color_b := s.color_b.getD DEFAULT_WATERMARK_SETTINGS.color_b,
    opacity := s.opacity.getD DEFAULT_WATERMARK_SETTINGS.opacity,
    auto_color := s.auto_color.getD DEFAULT_WATERMARK_SETTINGS.auto_color,
    stroke_enabled := s.stroke_enabled.getD DEFAULT_WATERMARK_SETTINGS.stroke_enabled,
    stroke_width := s.stroke_width.getD DEFAULT_WATERMARK_SETTINGS.stroke_width }

/-- Python `int(q)` applied to a (rational-modelled) float: truncation
toward zero. -/
def pyInt (q : ℚ) : Int := q.num.tdiv (q.den : Int)

/-- A text bounding box `(left, top, right, bottom)` as returned by
`draw.textbbox((0, 0), text, font=font)`. -/
structure BBox where
  left : Int
  top : Int
  right : Int
  bottom : Int

/-- One file entry of an extracted archive: relative directory path,
file basename and raw content bytes. -/
structure ZipEntry where
  dir : List String
  name : String
  content : List Nat

/-- An RGBA colour as passed to the drawing call. -/
structure RGBA where
  r : Int
  g : Int
  b : Int
  a : Int

/-- The arguments of the single `draw.text` invocation, recorded as the
observable interaction with the glyph rasteriser.  `font = none` models the
built-in default face (`ImageFont.load_default()`); the stroke fields are
`none` when no stroke is drawn. -/
structure DrawCall where
  x : Int
  y : Int
  text : String
  fill : RGBA
  font : Option (String × Int)
  strokeWidth : Option Int
  strokeFill : Option RGBA

/-- The external library surface: image codec, font loading and metrics,
glyph compositing and zip-container parsing, supplied as oracles. -/
structure Env where
  decode : List Nat → Option Img
  loads : String → Bool
  bbox : String → Int → String → BBox
  defaultBbox : String → BBox
  composite : (Nat → Nat → Int × Int × Int) → DrawCall → Nat → Nat → Int × Int × Int
  encode : Img → String → Nat → List Nat
  parseZip : List Nat → Option (List ZipEntry)

/-- `img.resize((nw, nh), Image.NEAREST)`: nearest-neighbour resampling;
each destination pixel copies the source pixel nearest to its centre. -/
def resizeNearest (img : Img) (nw nh : Nat) : Img :=
  { width := nw, height := nh,
    px := fun x y =>
      img.px (((2 * x + 1) * img.width) / (2 * nw)) (((2 * y + 1) * img.height) / (2 * nh)) }

/-- `font_paths` (main.py). -/
def font_paths : List String :=
  ["Roboto.ttf", "./Roboto.ttf", "fonts/Roboto.ttf",
   "/usr/share/fonts/truetype/roboto/Roboto-Regular.ttf",
   "/System/Library/Fonts/Supplemental/Arial.ttf"]

/-- Fuel-driven unfolding of Python `range(s, 10, -5)`. -/
def sizeListAux : Nat → Int → List Int
  | 0, _ => []
  | fuel + 1, s => if 10 < s then s :: sizeListAux fuel (s - 5) else []

/-- Python `range(s, 10, -5)`: the sizes tried by the font fitter,
descending from `s` in steps of 5 while strictly above 10. -/
def sizeList (s : Int) : List Int := sizeListAux ((s - 10).toNat + 1) s

/-- `max(text_width, text_height)` of `draw.textbbox((0, 0), text, font)`
for the truetype font at path `p` with size `size`. -/
def bboxMax (env : Env) (p : String) (size : Int) (text : String) : Int :=
  max ((env.bbox p size text).right - (env.bbox p size text).left)
      ((env.bbox p size text).bottom - (env.bbox p size text).top)

/-- Inner loop of the font search for a single candidate path: `none` when
the font resource fails to load or no tried size fits within `target`. -/
def fontSearchPath (env : Env) (text : String) (target : Int) (p : String) : Option Int :=
  if env.loads p then
    (sizeList target).find? (fun size => decide (bboxMax env p size text ≤ target))
  else none

/-- The font fitter (`for font_path in font_paths: ...` in
`process_image_with_watermark`): the first candidate path that loads and
yields a fitting size wins; `none` means the default face is used. -/
def fitFont (env : Env) (text : String) (target : Int) : Option (String × Int) :=
  font_paths.findSome? (fun p => (fontSearchPath env text target p).map (fun size => (p, size)))

/-- Bounding box of the finally drawn text: the fitted truetype font's box,
or the default face's box when fitting failed. -/
def chosenBBox (env : Env) (text : String) (target : Int) : BBox :=
  match fitFont env text target with
  | some ps => env.bbox ps.1 ps.2 text
  | none => env.defaultBbox text

/-- `target_text_size = int(min_side * size_percent)` computed on the
2×-upsampled image. -/
def targetSize (img : Img) (s : SettingsDict) : Int :=
  pyInt (((min (img.width * 2) (img.height * 2) : Nat) : ℚ) *
    (s.size_percent.getD DEFAULT_WATERMARK_SETTINGS.size_percent))

/-- Result of one render: final composited image, encoded output bytes, the
recorded drawing call, and the final text bounding-box dimensions. -/
structure RenderResult where
  image : Img
  data : List Nat
  call : DrawCall
  textW : Int
  textH : Int

/-- Body of `process_image_with_watermark` after a successful decode, with
the three `int(...)` conversions (`target_text_size`, `margin_x`,
`margin_y`) passed explicitly; `renderCore` instantiates them. -/
def renderCoreAux (env : Env) (watermark_text : String) (s : SettingsDict) (img : Img)
    (target_text_size margin_x margin_y : Int) : RenderResult :=
  let auto_color := s.auto_color.getD DEFAULT_WATERMARK_SETTINGS.auto_color
  let auto_color_value : Option (Int × Int × Int) :=
    if auto_color then some (get_auto_color img) else none
  let img2 := resizeNearest img (img.width * 2) (img.height * 2)
  let fitted := fitFont env watermark_text target_text_size
  let bbox := chosenBBox env watermark_text target_text_size
  let text_width := bbox.right - bbox.left
  let text_height := bbox.bottom - bbox.top
  let x := (img2.width : Int) - text_width - margin_x
  let y := (img2.height : Int) - text_height - margin_y
  let opacity := s.opacity.getD DEFAULT_WATERMARK_SETTINGS.opacity
  let stroke_enabled := s.stroke_enabled.getD DEFAULT_WATERMARK_SETTINGS.stroke_enabled
  let stroke_width := s.stroke_width.getD DEFAULT_WATERMARK_SETTINGS.stroke_width
  let fillRGB : Int × Int × Int :=
    if auto_color && auto_color_value.isSome then auto_color_value.getD (0, 0, 0)
    else (s.color_r.getD DEFAULT_WATERMARK_SETTINGS.color_r,
          s.color_g.getD DEFAULT_WATERMARK_SETTINGS.color_g,
          s.color_b.getD DEFAULT_WATERMARK_SETTINGS.color_b)
  let stroke_fill : Option RGBA :=
    if stroke_enabled then
      if auto_color && auto_color_value.isSome then
        some ⟨(invert_color fillRGB).1, (invert_color fillRGB).2.1,
              (invert_color fillRGB).2.2, opacity⟩
      else
        some ⟨(invert_color fillRGB).1, (invert_color fillRGB).2.1,
              (invert_color fillRGB).2.2, opacity⟩
    else none
  let strokeArgs : Option Int × Option RGBA :=
    if stroke_enabled && stroke_fill.isSome then (some stroke_width, stroke_fill)
    else (none, none)
  let call : DrawCall :=
    { x := x, y := y, text := watermark_text,
      fill := ⟨fillRGB.1, fillRGB.2.1, fillRGB.2.2, opacity⟩,
      font := fitted, strokeWidth := strokeArgs.1, strokeFill := strokeArgs.2 }
  let composited : Img := ⟨img2.width, img2.height, env.composite img2.px call⟩
  { image := composited, data := env.encode composited "JPEG" 95,
    call := call, textW := text_width, textH := text_height }

/-- The render pipeline on a decoded image (`process_image_with_watermark`
after `Image.open` succeeded):  auto colour on the original image, 2×
nearest-neighbour upsampling, font fitting against
`int(min_side * size_percent)`, bottom-right placement with `int(0.05 * side)`
margins, fill/stroke resolution, draw, composite, JPEG re-encode. -/
def renderCore (env : Env) (watermark_text : String) (s : SettingsDict) (img : Img) :
    RenderResult :=
  renderCoreAux env watermark_text s img (targetSize img s)
    (pyInt (((img.width * 2 : Nat) : ℚ) * 0.05))
    (pyInt (((img.height * 2 : Nat) : ℚ) * 0.05))

/-- The only error a single render surfaces: the source bytes failed to
decode. -/
inductive RenderError
  | decodeError
deriving DecidableEq

/-- `process_image_with_watermark` (main.py): decode, render, re-encode. -/
def process_image_with_watermark (env : Env) (image_bytes : List Nat)
    (watermark_text : String) (settings : Option SettingsDict) :
    Except RenderError RenderResult :=
  match env.decode image_bytes with
  | none => .error .decodeError
  | some img => .ok (renderCore env watermark_text (dictOf settings) img)

/-- Concrete witness environment: a 1-pixel-codec, `Roboto.ttf` loads, the
reported bounding box of size `s` text is `s × s`. -/
def img50 : Img := ⟨50, 50, fun _ _ => (0, 0, 0)⟩

def env1 : Env :=
  { decode := fun b => if b = [50] then some img50 else none,
    loads := fun p => p == "Roboto.ttf",
    bbox := fun _ size _ => ⟨0, 0, size, size⟩,
    defaultBbox := fun _ => ⟨0, 0, 10, 10⟩,
    composite := fun base _ => base,
    encode := fun _ _ _ => [],
    parseZip := fun _ => none }

/-- Concrete witness environment for C2: bytes `[w, h]` decode to a black
`w × h` image, and encoding stores exactly the dimensions. -/
def envW : Env :=
  { decode := fun b => match b with
      | [w, h] => some ⟨w, h, fun _ _ => (0, 0, 0)⟩
      | _ => none,
    loads := fun _ => false,
    bbox := fun _ size _ => ⟨0, 0, size, size⟩,
    defaultBbox := fun _ => ⟨0, 0, 10, 10⟩,
    composite := fun base _ => base,
    encode := fun i _ _ => [i.width, i.height],
    parseZip := fun _ => none }

def imgW : Img := ⟨5, 7, fun _ _ => (0, 0, 0)⟩

/-- Settings dictionary enabling the stroke, all other keys absent. -/
def strokeDict : SettingsDict := { stroke_enabled := some true }

-- C10: field-by-field defaulting equals an up-front merge.

/-- Modelled from the spec's design note: the same render pipeline reading a
fully-populated settings record directly (the
"default-overridden-by-stored-value merge at load time" formulation). -/
def renderFullAux (env : Env) (watermark_text : String) (s : WatermarkSettings) (img : Img)
    (target_text_size margin_x margin_y : Int) : RenderResult :=
  let auto_color := s.auto_color
  let auto_color_value : Option (Int × Int × Int) :=
    if auto_color then some (get_auto_color img) else none
  let img2 := resizeNearest img (img.width * 2) (img.height * 2)
  let fitted := fitFont env watermark_text target_text_size
  let bbox := chosenBBox env watermark_text target_text_size
  let text_width := bbox.right - bbox.left
  let text_height := bbox.bottom - bbox.top
  let x := (img2.width : Int) - text_width - margin_x
  let y := (img2.height : Int) - text_height - margin_y
  let opacity := s.opacity
  let stroke_enabled := s.stroke_enabled
  let stroke_width := s.stroke_width
  let fillRGB : Int × Int × Int :=
    if auto_color && auto_color_value.isSome then auto_color_value.getD (0, 0, 0)
    else (s.color_r, s.color_g, s.color_b)
  let stroke_fill : Option RGBA :=
    if stroke_enabled then
      if auto_color && auto_color_value.isSome then
        some ⟨(invert_color fillRGB).1, (invert_color fillRGB).2.1,
              (invert_color fillRGB).2.2, opacity⟩
      else
        some ⟨(invert_color fillRGB).1, (invert_color fillRGB).2.1,
              (invert_color fillRGB).2.2, opacity⟩
    else none
  let strokeArgs : Option Int × Option RGBA :=
    if stroke_enabled && stroke_fill.isSome then (some stroke_width, stroke_fill)
    else (none, none)
  let call : DrawCall :=
    { x := x, y := y, text := watermark_text,
      fill := ⟨fillRGB.1, fillRGB.2.1, fillRGB.2.2, opacity⟩,
      font := fitted, strokeWidth := strokeArgs.1, strokeFill := strokeArgs.2 }
  let composited : Img := ⟨img2.width, img2.height, env.composite img2.px call⟩
  { image := composited, data := env.encode composited "JPEG" 95,
    call := call, textW := text_width, textH := text_height }

/-- Modelled from the spec's design note: render with a total, already
merged settings record. -/
def process_image_full (env : Env) (image_bytes : List Nat) (watermark_text : String)
    (s : WatermarkSettings) : Except RenderError RenderResult :=
  match env.decode image_bytes with
  | none => .error .decodeError
  | some img => .ok (renderFullAux env watermark_text s img
      (pyInt (((min (img.width * 2) (img.height * 2) : Nat) : ℚ) * s.size_percent))
      (pyInt (((img.width * 2 : Nat) : ℚ) * 0.05))
      (pyInt (((img.height * 2 : Nat) : ℚ) * 0.05)))

-- Archive batch processing (`process_zip_archive`, main.py).

/-- `file.startswith('.')` on an entry basename. -/
def startsWithDot (s : String) : Bool :=
  match s.data with
  | [] => false
  | c :: _ => c == '.'

/-- `str.lower()` (character-wise; the compared extensions are ASCII). -/
def str_lower (s : String) : String := String.mk (s.data.map Char.toLower)

/-- `pathlib.PurePath.suffix`: the final dot-suffix of a basename; empty
when the only dot is leading or the name ends in a dot. -/
def path_suffix (name : String) : String :=
  let cs := name.data
  match cs.reverse.findIdx? (fun c => c == '.') with
  | none => ""
  | some j =>
    let i := cs.length - 1 - j
    if 0 < i ∧ i < cs.length - 1 then String.mk (cs.drop i) else ""

/-- `image_extensions` (main.py). -/
def image_extensions : List String := [".jpg", ".jpeg", ".png", ".bmp", ".webp", ".tiff"]

/-- `file_ext in image_extensions` with `file_ext = file_path.suffix.lower()`. -/
def isImageName (name : String) : Bool :=
  image_extensions.contains (str_lower (path_suffix name))

/-- A relative output location: directory path components plus file name. -/
abbrev FileKey := List String × String

/-- The output scratch tree: the written files, keyed by location. -/
abbrev OutTree := List (FileKey × List Nat)

/-- Writing a file into the output tree: overwrite when the location is
already occupied (filesystem semantics), append otherwise. -/
def writeTree (t : OutTree) (k : FileKey) (c : List Nat) : OutTree :=
  if t.any (fun e => decide (e.1 = k)) then
    t.map (fun e => if e.1 = k then (k, c) else e)
  else t ++ [(k, c)]

/-- One step of the walk in `process_zip_archive`: skip hidden names,
watermark image entries (renamed on success, copied under the original name
on failure), copy everything else verbatim.  The second component counts
successfully processed images. -/
def processOneEntry (env : Env) (watermark_text : String) (s : SettingsDict)
    (acc : OutTree × Nat) (e : ZipEntry) : OutTree × Nat :=
  if startsWithDot e.name then acc
  else if isImageName e.name then
    match process_image_with_watermark env e.content watermark_text (some s) with
    | .ok r => (writeTree acc.1 (e.dir, "watermarked_" ++ e.name) r.data, acc.2 + 1)
    | .error _ => (writeTree acc.1 (e.dir, e.name) e.content, acc.2)
  else (writeTree acc.1 (e.dir, e.name) e.content, acc.2)

/-- The archive job's fatal failure: the container cannot be opened
(`zipfile.BadZipFile` re-raised as `ValueError`). -/
inductive ZipError
  | corruptContainer
deriving DecidableEq

/-- `process_zip_archive` (main.py): open the container via the zip oracle
(raising the corrupt-container error when that fails), walk every extracted
entry, build the output tree, and return it together with the processed
count. -/
def process_zip_archive (env : Env) (zip_bytes : List Nat) (watermark_text : String)
    (settings : Option SettingsDict) : Except ZipError (OutTree × Nat) :=
  match env.parseZip zip_bytes with
  | none => .error .corruptContainer
  | some entries =>
      .ok (entries.foldl (processOneEntry env watermark_text (dictOf settings)) ([], 0))

/-- The output basename a retained entry receives. -/
def outName (env : Env) (text : String) (s : SettingsDict) (e : ZipEntry) : String :=
  if isImageName e.name then
    match process_image_with_watermark env e.content text (some s) with
    | .ok _ => "watermarked_" ++ e.name
    | .error _ => e.name
  else e.name

/-- The output location a retained entry is written to. -/
def outKey (env : Env) (text : String) (s : SettingsDict) (e : ZipEntry) : FileKey :=
  (e.dir, outName env text s e)

/-- The bytes a retained entry contributes to the output. -/
def outContent (env : Env) (text : String) (s : SettingsDict) (e : ZipEntry) : List Nat :=
  if isImageName e.name then
    match process_image_with_watermark env e.content text (some s) with
    | .ok r => r.data
    | .error _ => e.content
  else e.content

/-- Whether an entry is an image that renders successfully. -/
def renderOk (env : Env) (text : String) (s : SettingsDict) (e : ZipEntry) : Bool :=
  isImageName e.name &&
    match process_image_with_watermark env e.content text (some s) with
    | .ok _ => true
    | .error _ => false

/-- The non-hidden entries: the ones that are copied or processed. -/
def retainedEntries (es : List ZipEntry) : List ZipEntry :=
  es.filter (fun e => !(startsWithDot e.name))

/-- Entries of the C7 counterexample archive: a healthy image and a corrupt
image whose name is the healthy one's output name. -/
def entriesA : List ZipEntry :=
  [⟨[], "a.jpg", [1]⟩, ⟨[], "watermarked_a.jpg", [0]⟩]

/-- The C8 counterexample archive: same two entries, corrupt one first. -/
def entriesB : List ZipEntry :=
  [⟨[], "watermarked_a.jpg", [0]⟩, ⟨[], "a.jpg", [1]⟩]

/-- A benign single-image archive. -/
def entriesC1 : List ZipEntry := [⟨[], "a.jpg", [1]⟩]

/-- A single-corrupt-image archive. -/
def entriesC2 : List ZipEntry := [⟨[], "b.jpg", [0]⟩]

/-- Tiny 1×1 image decoded from the byte string `[1]`. -/
def imgZ : Img := ⟨1, 1, fun _ _ => (0, 0, 0)⟩

/-- Concrete archive environment: `[1]` decodes, `[0]` is corrupt, encoding
always yields `[2]`, and the container bytes `[9]/[8]/[7]/[6]` open to the
archives above while all other bytes are corrupt containers. -/
def envZ : Env :=
  { decode := fun b => if b = [1] then some imgZ else none,
    loads := fun _ => false,
    bbox := fun _ size _ => ⟨0, 0, size, size⟩,
    defaultBbox := fun _ => ⟨0, 0, 10, 10⟩,
    composite := fun base _ => base,
    encode := fun _ _ _ => [2],
    parseZip := fun b =>
      if b = [9] then some entriesA
      else if b = [8] then some entriesB
      else if b = [7] then some entriesC1
      else if b = [6] then some entriesC2
      else none }

-- Helper facts about `getdata`.

theorem getdata_length (img : Img) : img.getdata.length = img.width * img.height := by
  simp [Img.getdata]

theorem getdata_mem (img : Img) (hw : 0 < img.width) (_hh : 0 < img.height) :
    ∀ p ∈ img.getdata, ∃ x y, x < img.width ∧ y < img.height ∧ p = img.px x y := by
  intro p hp
  simp only [Img.getdata, List.mem_map, List.mem_range] at hp
  obtain ⟨i, hi, rfl⟩ := hp
  refine ⟨i % img.width, i / img.width, Nat.mod_lt _ hw, ?_, rfl⟩
  rw [Nat.div_lt_iff_lt_mul hw, Nat.mul_comm]
  exact hi

theorem list_sum_const (c : ℚ) : ∀ (l : List ℚ), (∀ x ∈ l, x = c) → l.sum = l.length * c := by
  intro l
  induction l with
  | nil => simp
  | cons a t ih =>
    intro h
    have ha : a = c := h a (List.mem_cons_self a t)
    have ht := ih (fun x hx => h x (List.mem_cons_of_mem a hx))
    simp only [List.sum_cons, List.length_cons, ht, ha]
    push_cast
    ring

/-- C3: the automatic colour classifier returns white (255,255,255) exactly
when the average luma `0.299R + 0.587G + 0.114B` over all pixels is strictly
below 128, and black (0,0,0) otherwise; an all-black image yields white and
an all-white image yields black. -/
theorem auto_color_threshold (img : Img) (h : 0 < img.width * img.height) :
    (get_auto_color img = (255, 255, 255) ↔ calculate_average_brightness img < 128)
    ∧ (get_auto_color img = (0, 0, 0) ↔ ¬ calculate_average_brightness img < 128)
    ∧ ((∀ x y, x < img.width → y < img.height → img.px x y = (0, 0, 0)) →
        get_auto_color img = (255, 255, 255))
    ∧ ((∀ x y, x < img.width → y < img.height → img.px x y = (255, 255, 255)) →
        get_auto_color img = (0, 0, 0)) := by
  have hw : 0 < img.width := by
    rcases Nat.eq_zero_or_pos img.width with h0 | h0
    · rw [h0] at h; simp at h
    · exact h0
  have hh : 0 < img.height := by
    rcases Nat.eq_zero_or_pos img.height with h0 | h0
    · rw [h0] at h; simp at h
    · exact h0
  refine ⟨?_, ?_, ?_, ?_⟩
  · unfold get_auto_color
    by_cases hlt : calculate_average_brightness img < 128
    · rw [if_pos hlt]; exact iff_of_true rfl hlt
    · rw [if_neg hlt]; exact iff_of_false (by decide) hlt
  · unfold get_auto_color
    by_cases hlt : calculate_average_brightness img < 128
    · rw [if_pos hlt]; exact iff_of_false (by decide) (not_not_intro hlt)
    · rw [if_neg hlt]; exact iff_of_true rfl hlt
  · intro hblack
    have hz : ∀ q ∈ img.getdata.map luma, q = 0 := by
      intro q hq
      simp only [List.mem_map] at hq
      obtain ⟨p, hp, rfl⟩ := hq
      obtain ⟨x, y, hx, hy, rfl⟩ := getdata_mem img hw hh p hp
      rw [hblack x y hx hy]
      norm_num [luma]
    have hsum : (img.getdata.map luma).sum = 0 := List.sum_eq_zero hz
    have havg : calculate_average_brightness img = 0 := by
      rw [calculate_average_brightness, hsum, zero_div]
    unfold get_auto_color
    rw [havg, if_pos (by norm_num : (0:ℚ) < 128)]
  · intro hwhite
    have hz : ∀ q ∈ img.getdata.map luma, q = 255 := by
      intro q hq
      simp only [List.mem_map] at hq
      obtain ⟨p, hp, rfl⟩ := hq
      obtain ⟨x, y, hx, hy, rfl⟩ := getdata_mem img hw hh p hp
      rw [hwhite x y hx hy]
      norm_num [luma]
    have hsum := list_sum_const 255 _ hz
    have hlen : (img.getdata.map luma).length = img.width * img.height := by
      rw [List.length_map, getdata_length]
    have hne : ((img.width * img.height : Nat) : ℚ) ≠ 0 := by
      exact_mod_cast Nat.pos_iff_ne_zero.mp h
    have havg : calculate_average_brightness img = 255 := by
      rw [calculate_average_brightness, hsum, hlen, getdata_length]
      field_simp
    unfold get_auto_color
    rw [havg, if_neg (by norm_num : ¬ (255:ℚ) < 128)]

/-- Witness for C3 at a concrete all-black 1×1 image. -/
theorem auto_color_threshold_witness :
    0 < 1 * 1 ∧ get_auto_color ⟨1, 1, fun _ _ => (0, 0, 0)⟩ = (255, 255, 255) :=
  ⟨Nat.one_pos, (auto_color_threshold ⟨1, 1, fun _ _ => (0, 0, 0)⟩ Nat.one_pos).2.2.1
    (fun _ _ _ _ => rfl)⟩

-- Facts about the size range and the font fitter.

theorem sizeListAux_irrel : ∀ (f1 f2 : Nat) (s : Int), (s - 10).toNat < f1 →
    (s - 10).toNat < f2 → sizeListAux f1 s = sizeListAux f2 s := by
  intro f1
  induction f1 with
  | zero => intro f2 s h1 _; omega
  | succ n ih =>
    intro f2 s h1 h2
    cases f2 with
    | zero => omega
    | succ m =>
      simp only [sizeListAux]
      by_cases hs : 10 < s
      · rw [if_pos hs, if_pos hs, ih m (s - 5) (by omega) (by omega)]
      · rw [if_neg hs, if_neg hs]

theorem sizeList_unfold (s : Int) :
    sizeList s = if 10 < s then s :: sizeList (s - 5) else [] := by
  show sizeListAux ((s - 10).toNat + 1) s = _
  simp only [sizeListAux]
  by_cases hs : 10 < s
  · rw [if_pos hs, if_pos hs]
    exact congrArg (List.cons s) (sizeListAux_irrel _ _ _ (by omega) (by omega))
  · rw [if_neg hs, if_neg hs]

theorem sizeListAux_mem : ∀ (fuel : Nat) (t s : Int), (t - 10).toNat < fuel →
    (s ∈ sizeListAux fuel t ↔ 10 < s ∧ s ≤ t ∧ (t - s) % 5 = 0) := by
  intro fuel
  induction fuel with
  | zero => intro t s h; omega
  | succ n ih =>
    intro t s h
    simp only [sizeListAux]
    by_cases ht : 10 < t
    · rw [if_pos ht]
      simp only [List.mem_cons]
      rw [ih (t - 5) s (by omega)]
      constructor
      · rintro (rfl | ⟨h1, h2, h3⟩)
        · exact ⟨ht, le_refl s, by omega⟩
        · exact ⟨h1, by omega, by omega⟩
      · rintro ⟨h1, h2, h3⟩
        by_cases hst : s = t
        · exact Or.inl hst
        · exact Or.inr ⟨h1, by omega, by omega⟩
    · rw [if_neg ht]
      simp only [List.not_mem_nil, false_iff]
      omega

theorem sizeList_mem (t s : Int) :
    s ∈ sizeList t ↔ 10 < s ∧ s ≤ t ∧ (t - s) % 5 = 0 :=
  sizeListAux_mem _ t s (by omega)

theorem sizeList_pairwise (t : Int) : (sizeList t).Pairwise (fun a b => b < a) := by
  rw [sizeList_unfold]
  by_cases h : 10 < t
  · rw [if_pos h]
    refine List.Pairwise.cons ?_ (sizeList_pairwise (t - 5))
    intro b hb
    have := (sizeList_mem _ _).mp hb
    omega
  · rw [if_neg h]; exact List.Pairwise.nil
termination_by (t - 10).toNat
decreasing_by omega

theorem fitFont_some (env : Env) (text : String) (target : Int) (p : String) (sz : Int)
    (h : fitFont env text target = some (p, sz)) :
    ∃ pre post, font_paths = pre ++ p :: post
      ∧ (∀ q ∈ pre, fontSearchPath env text target q = none)
      ∧ env.loads p = true
      ∧ sz ∈ sizeList target
      ∧ bboxMax env p sz text ≤ target
      ∧ ∀ s ∈ sizeList target, sz < s → target < bboxMax env p s text := by
  unfold fitFont at h
  rw [List.findSome?_eq_some_iff] at h
  obtain ⟨l1, q, l2, hsplit, hq, hpre⟩ := h
  rw [Option.map_eq_some'] at hq
  obtain ⟨sz', hsearch, heq⟩ := hq
  simp only [Prod.mk.injEq] at heq
  obtain ⟨rfl, rfl⟩ := heq
  unfold fontSearchPath at hsearch
  by_cases hl : env.loads q = true
  · rw [if_pos hl] at hsearch
    have hmem := List.mem_of_find?_eq_some hsearch
    have hacc : bboxMax env q sz' text ≤ target := by
      have h' := List.find?_some hsearch
      simp only [decide_eq_true_eq] at h'
      exact h'
    obtain ⟨hpb, as, bs, hsplit2, hprefail⟩ := List.find?_eq_some.mp hsearch
    refine ⟨l1, l2, hsplit, fun q' hq' => Option.map_eq_none'.mp (hpre q' hq'), hl, hmem,
      hacc, ?_⟩
    intro s hs hlt
    have hpw := sizeList_pairwise target
    rw [hsplit2, List.pairwise_append] at hpw
    have hsin : s ∈ as := by
      rw [hsplit2] at hs
      rcases List.mem_append.mp hs with h1 | h1
      · exact h1
      · rcases List.mem_cons.mp h1 with rfl | h2
        · omega
        · have := List.pairwise_cons.mp hpw.2.1
          have := this.1 s h2
          omega
    have hfail := hprefail s hsin
    have : ¬ (bboxMax env q s text ≤ target) := by
      intro hle
      rw [decide_eq_true hle] at hfail
      simp at hfail
    omega
  · rw [if_neg hl] at hsearch
    exact absurd hsearch (by simp)

theorem fitFont_none (env : Env) (text : String) (target : Int) :
    fitFont env text target = none ↔
      ∀ p ∈ font_paths, env.loads p = false ∨
        ∀ s ∈ sizeList target, target < bboxMax env p s text := by
  unfold fitFont
  rw [List.findSome?_eq_none_iff]
  constructor
  · intro h p hp
    have hmap := h p hp
    rw [Option.map_eq_none'] at hmap
    unfold fontSearchPath at hmap
    by_cases hl : env.loads p = true
    · rw [if_pos hl] at hmap
      right
      intro s hs
      have hnone := List.find?_eq_none.mp hmap s hs
      have : ¬ (bboxMax env p s text ≤ target) := by
        intro hle
        exact hnone (decide_eq_true hle)
      omega
    · left
      cases hb : env.loads p
      · rfl
      · exact absurd hb hl
  · intro h p hp
    rw [Option.map_eq_none']
    unfold fontSearchPath
    rcases h p hp with hl | hall
    · rw [if_neg (by simp [hl])]
    · by_cases hl : env.loads p = true
      · rw [if_pos hl, List.find?_eq_none]
        intro s hs hacc
        have h1 : bboxMax env p s text ≤ target := of_decide_eq_true hacc
        have h2 := hall s hs
        omega
      · rw [if_neg hl]

-- Projections of the render pipeline.

theorem renderCoreAux_call_font (env : Env) (text : String) (s : SettingsDict) (img : Img)
    (t mx my : Int) :
    (renderCoreAux env text s img t mx my).call.font = fitFont env text t := rfl

theorem renderCoreAux_textW (env : Env) (text : String) (s : SettingsDict) (img : Img)
    (t mx my : Int) :
    (renderCoreAux env text s img t mx my).textW =
      (chosenBBox env text t).right - (chosenBBox env text t).left := rfl

theorem renderCoreAux_textH (env : Env) (text : String) (s : SettingsDict) (img : Img)
    (t mx my : Int) :
    (renderCoreAux env text s img t mx my).textH =
      (chosenBBox env text t).bottom - (chosenBBox env text t).top := rfl

theorem renderCore_eq_aux (env : Env) (text : String) (s : SettingsDict) (img : Img)
    (t mx my : Int) (ht : targetSize img s = t)
    (hmx : pyInt (((img.width * 2 : Nat) : ℚ) * 0.05) = mx)
    (hmy : pyInt (((img.height * 2 : Nat) : ℚ) * 0.05) = my) :
    renderCore env text s img = renderCoreAux env text s img t mx my := by
  rw [renderCore, ht, hmx, hmy]

theorem pyInt_intCast (n : Int) : pyInt (n : ℚ) = n := by
  unfold pyInt
  simp [Rat.num_intCast, Rat.den_intCast]

/-- C1: whenever the font fitter succeeds on a truetype candidate (the
default-face fallback is not taken) and `0.1 ≤ size_percent ≤ 1.0`, the
final text bounding box satisfies
`max(width, height) ≤ ⌊min(2·srcW, 2·srcH) · size_percent⌋`. -/
theorem spec_size_percent_bound (env : Env) (bytes : List Nat) (text : String)
    (st : Option SettingsDict) (img0 : Img) (r : RenderResult) (p : String) (sz : Int)
    (hdec : env.decode bytes = some img0)
    (hsp : 1/10 ≤ (dictOf st).size_percent.getD DEFAULT_WATERMARK_SETTINGS.size_percent ∧
           (dictOf st).size_percent.getD DEFAULT_WATERMARK_SETTINGS.size_percent ≤ 1)
    (hproc : process_image_with_watermark env bytes text st = .ok r)
    (hfont : r.call.font = some (p, sz)) :
    max r.textW r.textH ≤
      ⌊((min (2 * img0.width) (2 * img0.height) : Nat) : ℚ) *
        ((dictOf st).size_percent.getD DEFAULT_WATERMARK_SETTINGS.size_percent)⌋ := by
  have hr : renderCore env text (dictOf st) img0 = r := by
    unfold process_image_with_watermark at hproc
    rw [hdec] at hproc
    exact (Except.ok.injEq _ _).mp hproc
  subst hr
  rw [renderCore, renderCoreAux_call_font] at hfont
  obtain ⟨pre, post, hsplit, hprenone, hload, hmem, hbound, hlargest⟩ :=
    fitFont_some env text _ p sz hfont
  have hcb : chosenBBox env text (targetSize img0 (dictOf st)) = env.bbox p sz text := by
    unfold chosenBBox
    rw [hfont]
  have hmax : max (renderCore env text (dictOf st) img0).textW
      (renderCore env text (dictOf st) img0).textH = bboxMax env p sz text := by
    rw [renderCore, renderCoreAux_textW, renderCoreAux_textH, hcb]
    rfl
  rw [hmax]
  refine le_trans hbound (le_of_eq ?_)
  unfold targetSize pyInt
  have hminc : min (img0.width * 2) (img0.height * 2) =
      min (2 * img0.width) (2 * img0.height) := by omega
  rw [hminc]
  set sp := (dictOf st).size_percent.getD DEFAULT_WATERMARK_SETTINGS.size_percent with hspdef
  set q : ℚ := ((min (2 * img0.width) (2 * img0.height) : Nat) : ℚ) * sp with hqdef
  have hq : 0 ≤ q := mul_nonneg (Nat.cast_nonneg _) (le_trans (by norm_num) hsp.1)
  have hnum : 0 ≤ q.num := Rat.num_nonneg.mpr hq
  rw [Rat.floor_def]
  rw [Int.tdiv_eq_ediv] <;> omega

theorem targetSize_img50 : targetSize img50 (dictOf none) = 30 := by
  unfold targetSize
  have h1 : (dictOf none).size_percent.getD DEFAULT_WATERMARK_SETTINGS.size_percent =
      (0.3 : ℚ) := rfl
  rw [h1]
  have h2 : ((min (img50.width * 2) (img50.height * 2) : Nat) : ℚ) * (0.3 : ℚ) =
      ((30 : Int) : ℚ) := by
    show ((min (50 * 2) (50 * 2) : Nat) : ℚ) * (0.3 : ℚ) = ((30 : Int) : ℚ)
    norm_num
  rw [h2, pyInt_intCast]

theorem margin_img50_x : pyInt (((img50.width * 2 : Nat) : ℚ) * 0.05) = 5 := by
  have h2 : ((img50.width * 2 : Nat) : ℚ) * (0.05 : ℚ) = ((5 : Int) : ℚ) := by
    show ((50 * 2 : Nat) : ℚ) * (0.05 : ℚ) = ((5 : Int) : ℚ)
    norm_num
  rw [h2, pyInt_intCast]

theorem margin_img50_y : pyInt (((img50.height * 2 : Nat) : ℚ) * 0.05) = 5 := by
  have h2 : ((img50.height * 2 : Nat) : ℚ) * (0.05 : ℚ) = ((5 : Int) : ℚ) := by
    show ((50 * 2 : Nat) : ℚ) * (0.05 : ℚ) = ((5 : Int) : ℚ)
    norm_num
  rw [h2, pyInt_intCast]

/-- Witness for C1 at a concrete 50×50 image with default settings. -/
theorem spec_size_percent_bound_witness :
    env1.decode [50] = some img50 ∧
    max (renderCore env1 "X" (dictOf none) img50).textW
        (renderCore env1 "X" (dictOf none) img50).textH ≤
      ⌊((min (2 * img50.width) (2 * img50.height) : Nat) : ℚ) *
        ((dictOf none).size_percent.getD DEFAULT_WATERMARK_SETTINGS.size_percent)⌋ := by
  refine ⟨rfl, ?_⟩
  refine spec_size_percent_bound env1 [50] "X" none img50 _ "Roboto.ttf" 30 rfl ?_ rfl ?_
  · constructor
    · show (1 : ℚ)/10 ≤ 0.3
      norm_num
    · show (0.3 : ℚ) ≤ 1
      norm_num
  · rw [renderCore_eq_aux env1 "X" (dictOf none) img50 30 5 5 targetSize_img50
      margin_img50_x margin_img50_y, renderCoreAux_call_font]
    rfl

/-- C4: the font fitter's full behaviour.  Part 1: a successful fit comes
from the first candidate path that loads and admits a fitting size, with the
largest size in `range(target, 10, -5)` whose rendered box fits.  Part 2:
the fitter yields the fallback exactly when every candidate fails to load or
admits no fitting size.  Part 3: the tried sizes are exactly the descending
range from `target` in steps of 5 with exclusive floor 10.  Part 4: the
renderer never errors out on font fitting and uses the default face's
metrics exactly when the fitter fell back. -/
theorem glyph_fitter_characterization (env : Env) (text : String) (target : Int) :
    (∀ p sz, fitFont env text target = some (p, sz) →
      ∃ pre post, font_paths = pre ++ p :: post
        ∧ (∀ q ∈ pre, fontSearchPath env text target q = none)
        ∧ env.loads p = true
        ∧ sz ∈ sizeList target
        ∧ bboxMax env p sz text ≤ target
        ∧ ∀ s ∈ sizeList target, sz < s → target < bboxMax env p s text)
    ∧ (fitFont env text target = none ↔
        ∀ p ∈ font_paths, env.loads p = false ∨
          ∀ s ∈ sizeList target, target < bboxMax env p s text)
    ∧ (∀ s : Int, s ∈ sizeList target ↔ 10 < s ∧ s ≤ target ∧ (target - s) % 5 = 0)
    ∧ (∀ (bytes : List Nat) (st : Option SettingsDict) (img0 : Img),
        env.decode bytes = some img0 →
        ∃ r, process_image_with_watermark env bytes text st = .ok r
          ∧ r.call.font = fitFont env text (targetSize img0 (dictOf st))
          ∧ (fitFont env text (targetSize img0 (dictOf st)) = none →
              r.textW = (env.defaultBbox text).right - (env.defaultBbox text).left
              ∧ r.textH = (env.defaultBbox text).bottom - (env.defaultBbox text).top)) := by
  refine ⟨fun p sz h => fitFont_some env text target p sz h, fitFont_none env text target,
    fun s => sizeList_mem target s, ?_⟩
  intro bytes st img0 hdec
  refine ⟨renderCore env text (dictOf st) img0, ?_, ?_, ?_⟩
  · unfold process_image_with_watermark
    rw [hdec]
  · rw [renderCore, renderCoreAux_call_font]
  · intro hnone
    constructor
    · rw [renderCore, renderCoreAux_textW]
      unfold chosenBBox
      rw [hnone]
    · rw [renderCore, renderCoreAux_textH]
      unfold chosenBBox
      rw [hnone]

/-- Witness for C4: size 15 belongs to the search range for target 30. -/
theorem glyph_fitter_characterization_witness : 15 ∈ sizeList 30 :=
  ((glyph_fitter_characterization env1 "X" 30).2.2.1 15).mpr (by decide)

-- C2: output dimensions, JPEG re-encode, nearest-neighbour upsampling.

theorem pyInt_eq_floor (q : ℚ) (h : 0 ≤ q) : pyInt q = ⌊q⌋ := by
  unfold pyInt
  rw [Rat.floor_def]
  have hnum : 0 ≤ q.num := Rat.num_nonneg.mpr h
  rw [Int.tdiv_eq_ediv] <;> omega

theorem resizeNearest_two_px (img : Img) (hw : 0 < img.width) (hh : 0 < img.height) :
    (resizeNearest img (img.width * 2) (img.height * 2)).px =
      fun x y => img.px (x / 2) (y / 2) := by
  funext x y
  unfold resizeNearest
  simp only
  have h1 : ((2 * x + 1) * img.width) / (2 * (img.width * 2)) = x / 2 := by
    rw [show 2 * (img.width * 2) = 4 * img.width by ring,
        show (2 * x + 1) * img.width = (2 * x + 1) * img.width by rfl,
        Nat.mul_div_mul_right _ _ hw]
    omega
  have h2 : ((2 * y + 1) * img.height) / (2 * (img.height * 2)) = y / 2 := by
    rw [show 2 * (img.height * 2) = 4 * img.height by ring,
        Nat.mul_div_mul_right _ _ hh]
    omega
  rw [h1, h2]

/-- C2: for a decodable source of size `w × h`, the render succeeds, its
output image (and hence the decoded JPEG output bytes, for any codec that
round-trips dimensions) is exactly `2w × 2h`, the output bytes are the JPEG
re-encode at quality 95 of the composited image, and the composited base is
the nearest-neighbour 2× upsample of the source. -/
theorem render_upsample_roundtrip (env : Env) (bytes : List Nat) (text : String)
    (st : Option SettingsDict) (img0 : Img)
    (hdec : env.decode bytes = some img0)
    (hw : 0 < img0.width) (hh : 0 < img0.height)
    (hcodec : ∀ (i : Img) (q : Nat), ∃ j, env.decode (env.encode i "JPEG" q) = some j
      ∧ j.width = i.width ∧ j.height = i.height) :
    ∃ r j, process_image_with_watermark env bytes text st = .ok r
      ∧ r.image.width = 2 * img0.width ∧ r.image.height = 2 * img0.height
      ∧ r.data = env.encode r.image "JPEG" 95
      ∧ env.decode r.data = some j ∧ j.width = 2 * img0.width ∧ j.height = 2 * img0.height
      ∧ ∀ x y, r.image.px x y =
          env.composite (fun a b => img0.px (a / 2) (b / 2)) r.call x y := by
  obtain ⟨j, hj, hjw, hjh⟩ := hcodec (renderCore env text (dictOf st) img0).image 95
  refine ⟨renderCore env text (dictOf st) img0, j, ?_, ?_, ?_, rfl, hj, ?_, ?_, ?_⟩
  · unfold process_image_with_watermark
    rw [hdec]
  · show img0.width * 2 = 2 * img0.width
    ring
  · show img0.height * 2 = 2 * img0.height
    ring
  · rw [hjw]
    show img0.width * 2 = 2 * img0.width
    ring
  · rw [hjh]
    show img0.height * 2 = 2 * img0.height
    ring
  · intro x y
    show Env.composite env (resizeNearest img0 (img0.width * 2) (img0.height * 2)).px
        (renderCore env text (dictOf st) img0).call x y = _
    rw [resizeNearest_two_px img0 hw hh]

/-- Witness for C2 at a concrete 5×7 image. -/
theorem render_upsample_roundtrip_witness :
    ∃ r j, process_image_with_watermark envW [5, 7] "X" none = .ok r
      ∧ r.image.width = 2 * imgW.width ∧ r.image.height = 2 * imgW.height
      ∧ r.data = envW.encode r.image "JPEG" 95
      ∧ envW.decode r.data = some j ∧ j.width = 2 * imgW.width ∧ j.height = 2 * imgW.height
      ∧ ∀ x y, r.image.px x y =
          envW.composite (fun a b => imgW.px (a / 2) (b / 2)) r.call x y :=
  render_upsample_roundtrip envW [5, 7] "X" none imgW rfl (by decide) (by decide)
    (fun i q => ⟨⟨i.width, i.height, fun _ _ => (0, 0, 0)⟩, rfl, rfl, rfl⟩)

-- C5: bottom-right anchored placement with 5% margins.

theorem renderCoreAux_call_x (env : Env) (text : String) (s : SettingsDict) (img : Img)
    (t mx my : Int) :
    (renderCoreAux env text s img t mx my).call.x =
      ((img.width * 2 : Nat) : Int) -
        ((chosenBBox env text t).right - (chosenBBox env text t).left) - mx := rfl

theorem renderCoreAux_call_y (env : Env) (text : String) (s : SettingsDict) (img : Img)
    (t mx my : Int) :
    (renderCoreAux env text s img t mx my).call.y =
      ((img.height * 2 : Nat) : Int) -
        ((chosenBBox env text t).bottom - (chosenBBox env text t).top) - my := rfl

/-- C5: the drawn text box's bottom-right corner `(x + textW, y + textH)`
sits exactly `⌊0.05 · upsampledSide⌋` pixels inward from the bottom-right
corner of the upsampled image on each axis. -/
theorem placement_bottom_right_margin (env : Env) (bytes : List Nat) (text : String)
    (st : Option SettingsDict) (img0 : Img) (r : RenderResult)
    (hdec : env.decode bytes = some img0)
    (hproc : process_image_with_watermark env bytes text st = .ok r) :
    r.call.x + r.textW =
      ((2 * img0.width : Nat) : Int) - ⌊((2 * img0.width : Nat) : ℚ) * (5 / 100)⌋
    ∧ r.call.y + r.textH =
      ((2 * img0.height : Nat) : Int) - ⌊((2 * img0.height : Nat) : ℚ) * (5 / 100)⌋ := by
  have hr : renderCore env text (dictOf st) img0 = r := by
    unfold process_image_with_watermark at hproc
    rw [hdec] at hproc
    exact (Except.ok.injEq _ _).mp hproc
  subst hr
  have hmx : pyInt (((img0.width * 2 : Nat) : ℚ) * 0.05) =
      ⌊((2 * img0.width : Nat) : ℚ) * (5 / 100)⌋ := by
    rw [pyInt_eq_floor _ (mul_nonneg (Nat.cast_nonneg _) (by norm_num))]
    congr 1
    have hcast : ((img0.width * 2 : Nat) : ℚ) = ((2 * img0.width : Nat) : ℚ) := by
      push_cast
      ring
    rw [hcast]
    congr 1
    norm_num
  have hmy : pyInt (((img0.height * 2 : Nat) : ℚ) * 0.05) =
      ⌊((2 * img0.height : Nat) : ℚ) * (5 / 100)⌋ := by
    rw [pyInt_eq_floor _ (mul_nonneg (Nat.cast_nonneg _) (by norm_num))]
    congr 1
    have hcast : ((img0.height * 2 : Nat) : ℚ) = ((2 * img0.height : Nat) : ℚ) := by
      push_cast
      ring
    rw [hcast]
    congr 1
    norm_num
  constructor
  · rw [renderCore, renderCoreAux_call_x, renderCoreAux_textW, hmx]
    push_cast
    ring
  · rw [renderCore, renderCoreAux_call_y, renderCoreAux_textH, hmy]
    push_cast
    ring

/-- Witness for C5 at the concrete 50×50 image with default settings. -/
theorem placement_bottom_right_margin_witness :
    (renderCore env1 "X" (dictOf none) img50).call.x +
        (renderCore env1 "X" (dictOf none) img50).textW =
      ((2 * img50.width : Nat) : Int) - ⌊((2 * img50.width : Nat) : ℚ) * (5 / 100)⌋ :=
  (placement_bottom_right_margin env1 [50] "X" none img50 _ rfl rfl).1

-- C6: stroke colour is the channel-wise inverse of the fill.

theorem renderCoreAux_stroke (env : Env) (text : String) (s : SettingsDict) (img : Img)
    (t mx my : Int)
    (hs : s.stroke_enabled.getD DEFAULT_WATERMARK_SETTINGS.stroke_enabled = true) :
    (renderCoreAux env text s img t mx my).call.strokeFill =
      some ⟨255 - (renderCoreAux env text s img t mx my).call.fill.r,
            255 - (renderCoreAux env text s img t mx my).call.fill.g,
            255 - (renderCoreAux env text s img t mx my).call.fill.b,
            (renderCoreAux env text s img t mx my).call.fill.a⟩
    ∧ (renderCoreAux env text s img t mx my).call.strokeWidth =
        some (s.stroke_width.getD DEFAULT_WATERMARK_SETTINGS.stroke_width) := by
  simp only [renderCoreAux, hs, invert_color, ite_self, Bool.true_and, if_true,
    Option.isSome_some, Bool.and_true]
  exact ⟨trivial, trivial⟩

/-- C6: with `stroke_enabled`, the stroke drawn around the text has colour
`(255-r, 255-g, 255-b)` for resolved fill `(r, g, b)` (manual or automatic),
the same alpha as the fill (which is `settings.opacity`), and width
`settings.stroke_width`; white fill yields a black stroke. -/
theorem stroke_inverse_fill (env : Env) (bytes : List Nat) (text : String)
    (st : Option SettingsDict) (img0 : Img) (r : RenderResult)
    (hdec : env.decode bytes = some img0)
    (hproc : process_image_with_watermark env bytes text st = .ok r)
    (hstroke : (dictOf st).stroke_enabled.getD DEFAULT_WATERMARK_SETTINGS.stroke_enabled
        = true) :
    r.call.strokeFill =
      some ⟨255 - r.call.fill.r, 255 - r.call.fill.g, 255 - r.call.fill.b, r.call.fill.a⟩
    ∧ r.call.strokeWidth =
        some ((dictOf st).stroke_width.getD DEFAULT_WATERMARK_SETTINGS.stroke_width)
    ∧ r.call.fill.a = (dictOf st).opacity.getD DEFAULT_WATERMARK_SETTINGS.opacity
    ∧ (r.call.fill.r = 255 ∧ r.call.fill.g = 255 ∧ r.call.fill.b = 255 →
        r.call.strokeFill = some ⟨0, 0, 0, r.call.fill.a⟩) := by
  have hr : renderCore env text (dictOf st) img0 = r := by
    unfold process_image_with_watermark at hproc
    rw [hdec] at hproc
    exact (Except.ok.injEq _ _).mp hproc
  subst hr
  rw [renderCore]
  obtain ⟨hsf, hsw⟩ := renderCoreAux_stroke env text (dictOf st) img0
    (targetSize img0 (dictOf st))
    (pyInt (((img0.width * 2 : Nat) : ℚ) * 0.05))
    (pyInt (((img0.height * 2 : Nat) : ℚ) * 0.05)) hstroke
  refine ⟨hsf, hsw, rfl, ?_⟩
  rintro ⟨h1, h2, h3⟩
  rw [hsf, h1, h2, h3]
  norm_num

/-- Witness for C6: default white fill with stroke enabled yields the black
stroke `(0, 0, 0)` at fill alpha 128. -/
theorem stroke_inverse_fill_witness :
    (renderCore env1 "X" (dictOf (some strokeDict)) img50).call.strokeFill =
      some ⟨0, 0, 0, 128⟩ := by
  have h := stroke_inverse_fill env1 [50] "X" (some strokeDict) img50 _ rfl rfl rfl
  exact h.2.2.2 ⟨rfl, rfl, rfl⟩

/-- C10: looking every field up with its default at use time is observably
equal to rendering with the up-front default-overridden-by-stored-value
merge; an absent record behaves as the fixed default record
`(0.3, 255, 255, 255, 128, false, false, 2)`. -/
theorem settings_defaults_merge_equiv (env : Env) (bytes : List Nat) (text : String) :
    (∀ p : SettingsDict,
      process_image_with_watermark env bytes text (some p) =
        process_image_full env bytes text (mergeDefaults p))
    ∧ process_image_with_watermark env bytes text none =
        process_image_full env bytes text DEFAULT_WATERMARK_SETTINGS
    ∧ DEFAULT_WATERMARK_SETTINGS =
        ⟨0.3, 255, 255, 255, 128, false, false, 2⟩ := by
  refine ⟨fun p => ?_, ?_, rfl⟩
  · unfold process_image_with_watermark process_image_full
    cases env.decode bytes <;> rfl
  · unfold process_image_with_watermark process_image_full
    cases env.decode bytes <;> rfl

theorem writeTree_of_not_mem (t : OutTree) (k : FileKey) (c : List Nat)
    (h : ∀ e ∈ t, e.1 ≠ k) : writeTree t k c = t ++ [(k, c)] := by
  unfold writeTree
  rw [if_neg]
  intro hc
  obtain ⟨e, he, hek⟩ := List.any_eq_true.mp hc
  exact h e he (of_decide_eq_true hek)

theorem processOneEntry_hidden (env : Env) (text : String) (s : SettingsDict)
    (acc : OutTree × Nat) (e : ZipEntry) (h : startsWithDot e.name = true) :
    processOneEntry env text s acc e = acc := by
  unfold processOneEntry
  rw [if_pos h]

theorem processOneEntry_visible (env : Env) (text : String) (s : SettingsDict)
    (acc : OutTree × Nat) (e : ZipEntry) (h : startsWithDot e.name = false) :
    processOneEntry env text s acc e =
      (writeTree acc.1 (outKey env text s e) (outContent env text s e),
       acc.2 + if renderOk env text s e then 1 else 0) := by
  unfold processOneEntry outKey outName outContent renderOk
  cases himg : isImageName e.name with
  | false => simp [h, himg]
  | true =>
    cases hp : process_image_with_watermark env e.content text (some s) with
    | error err => simp [h, himg, hp]
    | ok r => simp [h, himg, hp]

theorem filter_length_split {α : Type} (p : α → Bool) (l : List α) :
    (l.filter p).length + (l.filter (fun x => !(p x))).length = l.length := by
  induction l with
  | nil => rfl
  | cons a t ih =>
    by_cases hp : p a = true <;> simp [List.filter_cons, hp] <;> omega

theorem foldl_entries_keys (env : Env) (text : String) (s : SettingsDict) :
    ∀ (es : List ZipEntry) (acc : OutTree × Nat),
      (acc.1.map Prod.fst ++ (retainedEntries es).map (outKey env text s)).Nodup →
      (es.foldl (processOneEntry env text s) acc).1 =
        acc.1 ++ (retainedEntries es).map
          (fun e => (outKey env text s e, outContent env text s e)) := by
  intro es
  induction es with
  | nil =>
    intro acc h
    simp [retainedEntries]
  | cons e tail ih =>
    intro acc h
    cases hhid : startsWithDot e.name with
    | true =>
      have hret : retainedEntries (e :: tail) = retainedEntries tail := by
        simp [retainedEntries, List.filter_cons, hhid]
      rw [hret] at h
      rw [List.foldl_cons, processOneEntry_hidden env text s acc e hhid, hret]
      exact ih acc h
    | false =>
      have hret : retainedEntries (e :: tail) = e :: retainedEntries tail := by
        simp [retainedEntries, List.filter_cons, hhid]
      rw [hret] at h
      simp only [List.map_cons] at h
      have hnotin : ∀ p ∈ acc.1, p.1 ≠ outKey env text s e := by
        intro p hp hpk
        have h1 : outKey env text s e ∈ acc.1.map Prod.fst := by
          rw [← hpk]
          exact List.mem_map_of_mem Prod.fst hp
        exact (List.nodup_append.mp h).2.2 h1 (List.mem_cons_self _ _)
      have hw := writeTree_of_not_mem acc.1 (outKey env text s e) (outContent env text s e)
        hnotin
      rw [List.foldl_cons, processOneEntry_visible env text s acc e hhid, hret]
      have hnodup' : (((acc.1 ++ [(outKey env text s e, outContent env text s e)]).map
          Prod.fst) ++ (retainedEntries tail).map (outKey env text s)).Nodup := by
        simpa [List.map_append, List.append_assoc] using h
      rw [ih (writeTree acc.1 (outKey env text s e) (outContent env text s e),
            acc.2 + if renderOk env text s e then 1 else 0) (by rw [hw]; exact hnodup')]
      rw [hw, List.append_assoc]
      rfl

theorem zip_output_entries (env : Env) (bytes : List Nat) (text : String)
    (st : Option SettingsDict) (es : List ZipEntry)
    (hparse : env.parseZip bytes = some es)
    (hnodup : ((retainedEntries es).map (outKey env text (dictOf st))).Nodup) :
    ∃ tree cnt, process_zip_archive env bytes text st = .ok (tree, cnt)
      ∧ tree = (retainedEntries es).map
          (fun e => (outKey env text (dictOf st) e, outContent env text (dictOf st) e))
      ∧ tree.map Prod.fst = (retainedEntries es).map (outKey env text (dictOf st))
      ∧ tree.length + (es.filter (fun e => startsWithDot e.name)).length = es.length := by
  have hfold := foldl_entries_keys env text (dictOf st) es ([], 0) (by simpa using hnodup)
  refine ⟨(es.foldl (processOneEntry env text (dictOf st)) ([], 0)).1,
          (es.foldl (processOneEntry env text (dictOf st)) ([], 0)).2, ?_, ?_, ?_, ?_⟩
  · unfold process_zip_archive
    rw [hparse]
  · simpa using hfold
  · rw [hfold]
    simp [List.map_map, Function.comp]
  · rw [hfold]
    simp only [List.nil_append, List.length_map]
    have hsplit := filter_length_split (fun e : ZipEntry => startsWithDot e.name) es
    simp only [retainedEntries]
    omega

/-- C7 (amended): provided the derived output locations of the retained
entries are pairwise distinct (no `watermarked_`-collision), the output
archive holds exactly one entry per retained input entry, in the same
relative directory, processed images under `watermarked_` + name and
everything else under the original name, so
`|output| = |input| − |hidden skipped|`. -/
theorem archive_entry_count_amended (env : Env) (bytes : List Nat) (text : String)
    (st : Option SettingsDict) (es : List ZipEntry)
    (hparse : env.parseZip bytes = some es)
    (hnodup : ((retainedEntries es).map (outKey env text (dictOf st))).Nodup) :
    ∃ tree cnt, process_zip_archive env bytes text st = .ok (tree, cnt)
      ∧ tree = (retainedEntries es).map
          (fun e => (outKey env text (dictOf st) e, outContent env text (dictOf st) e))
      ∧ tree.map Prod.fst = (retainedEntries es).map (outKey env text (dictOf st))
      ∧ tree.length + (es.filter (fun e => startsWithDot e.name)).length = es.length :=
  zip_output_entries env bytes text st es hparse hnodup

/-- Counterexample to C7 as stated: this archive has 2 entries, none
hidden, yet the output holds a single entry — the processed `a.jpg` and the
failed copy of `watermarked_a.jpg` collide on the output name
`watermarked_a.jpg`, and the later write overwrites the earlier one. -/
theorem archive_entry_count_counterexample :
    envZ.parseZip [9] = some entriesA
    ∧ entriesA.length = 2
    ∧ entriesA.filter (fun e => startsWithDot e.name) = []
    ∧ process_zip_archive envZ [9] "X" none =
        .ok ([(([], "watermarked_a.jpg"), [0])], 1) :=
  ⟨rfl, rfl, rfl, rfl⟩

/-- Witness for the amended C7 on a collision-free archive. -/
theorem archive_entry_count_amended_witness :
    ∃ tree cnt, process_zip_archive envZ [7] "X" none = .ok (tree, cnt)
      ∧ tree = (retainedEntries entriesC1).map
          (fun e => (outKey envZ "X" (dictOf none) e, outContent envZ "X" (dictOf none) e))
      ∧ tree.map Prod.fst = (retainedEntries entriesC1).map (outKey envZ "X" (dictOf none))
      ∧ tree.length + (entriesC1.filter (fun e => startsWithDot e.name)).length =
          entriesC1.length :=
  archive_entry_count_amended envZ [7] "X" none entriesC1 rfl
    (by
      rw [show (retainedEntries entriesC1).map (outKey envZ "X" (dictOf none)) =
          [outKey envZ "X" (dictOf none) ⟨[], "a.jpg", [1]⟩] from rfl]
      exact List.nodup_singleton _)

/-- C8 (amended): an image entry whose bytes fail to render is copied
unprocessed under its original name, the job as a whole succeeds, and —
provided the retained entries' output locations are pairwise distinct — the
untouched original bytes are present in the output at that location. -/
theorem corrupt_entry_fallback_amended (env : Env) (bytes : List Nat) (text : String)
    (st : Option SettingsDict) (es : List ZipEntry) (e : ZipEntry)
    (hparse : env.parseZip bytes = some es)
    (hnodup : ((retainedEntries es).map (outKey env text (dictOf st))).Nodup)
    (he : e ∈ es)
    (hhid : startsWithDot e.name = false)
    (himg : isImageName e.name = true)
    (hfail : process_image_with_watermark env e.content text (some (dictOf st)) =
      .error .decodeError) :
    ∃ tree cnt, process_zip_archive env bytes text st = .ok (tree, cnt)
      ∧ ((e.dir, e.name), e.content) ∈ tree := by
  obtain ⟨tree, cnt, hok, htree, _, _⟩ :=
    zip_output_entries env bytes text st es hparse hnodup
  refine ⟨tree, cnt, hok, ?_⟩
  rw [htree]
  have hre : e ∈ retainedEntries es := by
    simp [retainedEntries, List.mem_filter, he, hhid]
  have hkey : outKey env text (dictOf st) e = (e.dir, e.name) := by
    unfold outKey outName
    rw [if_pos himg, hfail]
  have hcon : outContent env text (dictOf st) e = e.content := by
    unfold outContent
    rw [if_pos himg, hfail]
  have hm := List.mem_map_of_mem
    (fun e => (outKey env text (dictOf st) e, outContent env text (dictOf st) e)) hre
  simp only [hkey, hcon] at hm
  exact hm

/-- Witness for the amended C8: a corrupt single image is copied through and
the job succeeds. -/
theorem corrupt_entry_fallback_amended_witness :
    ∃ tree cnt, process_zip_archive envZ [6] "X" none = .ok (tree, cnt)
      ∧ ((([] : List String), "b.jpg"), ([0] : List Nat)) ∈ tree :=
  corrupt_entry_fallback_amended envZ [6] "X" none entriesC2 ⟨[], "b.jpg", [0]⟩ rfl
    (by
      rw [show (retainedEntries entriesC2).map (outKey envZ "X" (dictOf none)) =
          [outKey envZ "X" (dictOf none) ⟨[], "b.jpg", [0]⟩] from rfl]
      exact List.nodup_singleton _)
    (List.mem_singleton.mpr rfl) rfl rfl rfl

/-- Counterexample to C8 as stated: the job succeeds, but the untouched
original bytes `[0]` of the corrupt entry `watermarked_a.jpg` are nowhere in
the output — the healthy `a.jpg`, walked later, overwrote that location with
its processed bytes `[2]`. -/
theorem corrupt_entry_fallback_counterexample :
    envZ.parseZip [8] = some entriesB
    ∧ isImageName "watermarked_a.jpg" = true
    ∧ process_image_with_watermark envZ [0] "X" (some (dictOf none)) = .error .decodeError
    ∧ process_zip_archive envZ [8] "X" none =
        .ok ([(([], "watermarked_a.jpg"), [2])], 1)
    ∧ ([2] : List Nat) ≠ [0] :=
  ⟨rfl, rfl, rfl, rfl, by decide⟩

/-- C9: the archive job returns the distinct corrupt-container error exactly
when the container bytes cannot be opened as a zip archive, it admits no
other error, and in the corrupt case no output is returned. -/
theorem corrupt_container_error_iff (env : Env) (bytes : List Nat) (text : String)
    (st : Option SettingsDict) :
    (process_zip_archive env bytes text st = .error .corruptContainer ↔
      env.parseZip bytes = none)
    ∧ (∀ er, process_zip_archive env bytes text st = .error er → er = .corruptContainer)
    ∧ (env.parseZip bytes = none →
        ∀ out, process_zip_archive env bytes text st ≠ .ok out) := by
  unfold process_zip_archive
  cases hp : env.parseZip bytes with
  | none =>
    refine ⟨by simp, fun er _ => by cases er; rfl, by simp⟩
  | some es =>
    refine ⟨by simp, ?_, ?_⟩
    · intro er h
      exact absurd h (by simp)
    · intro h
      exact absurd h (by simp)

/-- Witness for C9 at concrete corrupt container bytes. -/
theorem corrupt_container_error_iff_witness :
    process_zip_archive envZ [0] "X" none = .error .corruptContainer :=
  (corrupt_container_error_iff envZ [0] "X" none).1.mpr rfl
